import Mathlib

/-!
Verification of the twitter154 RapidAPI client library.

The repository contains two copies of the client: the current generic
engine (the unnamed source file, package `twitter`) and a legacy
hand-written version (`src/twitter154/api.go`).  The definitions below are
shallow embeddings of the Go functions of those files; each definition's
doc comment names the function and lines it transliterates.  Go slices are
Lean lists, Go `(value, error)` multiple returns are pairs with an
`Option goError` error component, network effects are an explicit
environment argument, and the unbounded `for` loops are driven by an
explicit fuel argument (`none` meaning the fuel ran out before the loop
did).
-/

/-- Go error values as this program builds them: the package sentinel
`ErrNotImplemented` (`errors.New("not implemented")`), a non-wrapping
`fmt.Errorf`/`errors.New` error carrying a message, and a
`fmt.Errorf("...: %w", err)` wrapper.  Go compares sentinels by identity;
the program has exactly one sentinel value, so structural equality is
faithful to identity here. -/
inductive goError where
  | errNotImplemented
  | errorf (msg : String)
  | wrap (msg : String) (inner : goError)
deriving DecidableEq, Repr

/-- Go `errors.Is`: repeatedly compare with the target and unwrap.
Only `wrap` errors unwrap (`fmt.Errorf` with `%w`). -/
def errorsIs : goError → goError → Bool
  | .wrap m inner, target => decide (goError.wrap m inner = target) || errorsIs inner target
  | e, target => decide (e = target)

/-- `param` (engine source, lines 91-94): one ordered query parameter.
The Go `value` field has type `any` and is rendered with
`fmt.Sprintf("%v", ...)` at the use sites; it is modelled after that
rendering, as the rendered string. -/
structure param where
  key : String
  value : String
deriving DecidableEq, Repr

/-- One HTTP request as issued by `c.get`: the path-segment list and the
ordered parameter list it was called with. -/
structure Request where
  path : List String
  params : List param
deriving DecidableEq, Repr

/-- Whether Go's `url.QueryEscape` leaves a byte unescaped: ASCII
alphanumerics and `-`, `_`, `.`, `~`. -/
def isQueryUnescapedChar (c : Char) : Bool :=
  c.isAlpha || c.isDigit || c = '-' || c = '_' || c = '.' || c = '~'

/-- Upper-case hexadecimal digit, as Go's escaper uses ("0123456789ABCDEF"). -/
def upperHexDigit (n : Nat) : Char :=
  if n < 10 then Char.ofNat (48 + n) else Char.ofNat (55 + n)

/-- Escape one character the way Go's `url.QueryEscape` escapes one byte:
kept if unescaped, space becomes `+`, anything else becomes `%XX` with
upper-case hex.  Go works byte-by-byte on the UTF-8 encoding; every string
the claims touch is ASCII, where byte = character. -/
def queryEscapeChar (c : Char) : List Char :=
  if isQueryUnescapedChar c then [c]
  else if c = ' ' then ['+']
  else ['%', upperHexDigit (c.toNat / 16 % 16), upperHexDigit (c.toNat % 16)]

/-- Go `url.QueryEscape`. -/
def queryEscape (s : String) : String :=
  String.mk (s.data.flatMap queryEscapeChar)

/-- One pass of Go `path.Clean`'s segment processing, modelled from its
documented rewrite rules: drop empty and `.` segments, let `..` pop the
previous segment (kept literally when there is nothing to pop and the path
is not rooted, dropped at the root of a rooted path).  `out` is the
processed stack, most recent segment first. -/
def cleanSegments : List String → List String → Bool → List String
  | [], out, _ => out
  | seg :: rest, out, rooted =>
    if seg = "" || seg = "." then cleanSegments rest out rooted
    else if seg = ".." then
      match out with
      | [] =>
        if rooted then cleanSegments rest [] rooted
        else cleanSegments rest [".."] rooted
      | top :: out2 =>
        if top = ".." then cleanSegments rest (".." :: top :: out2) rooted
        else cleanSegments rest out2 rooted
    else cleanSegments rest (seg :: out) rooted

/-- Go `path.Clean`, modelled from its documented rules (empty path becomes
`.`, repeated slashes collapse, `.` and resolvable `..` are eliminated). -/
def pathClean (s : String) : String :=
  if s = "" then "."
  else
    let rooted := s.startsWith "/"
    let body := String.intercalate "/" (cleanSegments (s.splitOn "/") [] rooted).reverse
    if rooted then (if body = "" then "/" else "/" ++ body)
    else (if body = "" then "." else body)

/-- Go `path.Join`: all-empty input gives `""`; otherwise leading empty
elements are skipped, the rest are joined with `/` and the result is
cleaned. -/
def pathJoin (elems : List String) : String :=
  if elems.all (fun e => e = "") then ""
  else pathClean (String.intercalate "/" (elems.dropWhile (fun e => e = "")))

/-- `(*Client).buildUrl` (engine source, lines 96-98):
`fmt.Sprintf("https://%s/%s", c.options.host, path.Join(p...))`. -/
def buildUrl (host : String) (p : List String) : String :=
  "https://" ++ host ++ "/" ++ pathJoin p

/-- `(*Client).buildUrlWithParameters` (engine source, lines 100-110): the
indexed loop appending `?key=value` for the first parameter and
`&key=value` for the rest, each value passed through `url.QueryEscape`. -/
def buildUrlWithParameters (host : String) (path : List String) (params : List param) : String :=
  params.enum.foldl
    (fun uri ip =>
      uri ++ (if ip.1 = 0 then "?" else "&") ++ ip.2.key ++ "=" ++ queryEscape ip.2.value)
    (buildUrl host path)

/-- The `&key=value` tail of a query string over a parameter list, in
order. -/
def ampConcat : List param → String
  | [] => ""
  | q :: qs => "&" ++ q.key ++ "=" ++ queryEscape q.value ++ ampConcat qs

/-- The query string as the spec's words describe it (sections 4.2 and 8):
empty for no parameters, otherwise `?` before the first `key=value` pair
and `&` before each subsequent pair, values percent-encoded independently,
parameters in the order given. -/
def queryStringSpec : List param → String
  | [] => ""
  | p :: rest => "?" ++ p.key ++ "=" ++ queryEscape p.value ++ ampConcat rest

theorem foldl_enumFrom_ampConcat (rest : List param) :
    ∀ (n : Nat) (uri : String), n ≠ 0 →
      (rest.enumFrom n).foldl
        (fun uri ip =>
          uri ++ (if ip.1 = 0 then "?" else "&") ++ ip.2.key ++ "=" ++ queryEscape ip.2.value)
        uri = uri ++ ampConcat rest := by
  induction rest with
  | nil =>
    intro n uri _
    simp [List.enumFrom, ampConcat, String.append_empty]
  | cons q qs ih =>
    intro n uri hn
    simp only [List.enumFrom, List.foldl, ampConcat]
    rw [ih (n + 1) _ (Nat.succ_ne_zero n)]
    simp only [if_neg hn]
    simp [String.append_assoc]

/-- A decoded page (`resultPaginated` capability, engine source lines
163-166): the item list `Result()` and the continuation token `Token()`. -/
structure Page (T : Type) where
  result : List T
  token : String
deriving DecidableEq, Repr

/-- The outcome of one fetch round trip as the paginator observes it:
`c.get` followed by `json.Unmarshal`.  `httpErr` is a failing `c.get`
(transport failure, non-2xx status, or body-read failure, carried as its
message — none of these errors can be the client's sentinel), `decodeErr`
a failing `json.Unmarshal`, and `page` a decoded page. -/
inductive FetchResult (T : Type) where
  | httpErr (msg : String)
  | decodeErr (msg : String)
  | page (r : Page T)
deriving DecidableEq

/-- The item list of a fetch outcome (`r.Result()`; empty unless a page
was decoded). -/
def pageItems {T : Type} : FetchResult T → List T
  | .page r => r.result
  | _ => []

/-- The continuation token of a fetch outcome (`r.Token()`; empty unless a
page was decoded). -/
def pageToken {T : Type} : FetchResult T → String
  | .page r => r.token
  | _ => ""

/-- Whether a fetch outcome decoded a page. -/
def isPage {T : Type} : FetchResult T → Bool
  | .page _ => true
  | _ => false

/-- A network environment in which every round trip succeeds and decodes,
the `n`-th fetch yielding `pages n`. -/
def pagesEnv {T : Type} (pages : Nat → Page T) : Nat → FetchResult T :=
  fun n => .page (pages n)

/-- `params[len(params)-1].value = r.Token()` (engine source, line 195):
overwrite the value of the last parameter, keeping its key. -/
def setLastValue : List param → String → List param
  | [], _ => []
  | [p], v => [⟨p.key, v⟩]
  | p :: q :: rest, v => p :: setLastValue (q :: rest) v

/-- The `for len(r.Result()) != 0` loop of `getResultPaginated` (engine
source, lines 183-196).  `i` is the index of the next round trip in `env`,
`cpath` the continuation path fixed before the loop, `cparams` the current
parameter list (whose last entry is the continuation token), `acc` the
accumulator and `r` the page decoded by the previous round trip.  Produces
the list of requests the loop issues together with the function's
`(results, err)` return value; `none` means the fuel ran out before the
loop did.  On an error the source returns `nil, err`, modelled as the
empty list plus the wrapped error. -/
def contLoop {T : Type} (env : Nat → FetchResult T) (cpath : List String) :
    Nat → Nat → List param → List T → Page T →
    Option (List Request × List T × Option goError)
  | fuel, i, cparams, acc, r =>
    if r.result.isEmpty then some ([], acc, none)
    else
      match fuel with
      | 0 => none
      | fuel' + 1 =>
        match env i with
        | .httpErr e => some ([⟨cpath, cparams⟩], [], some (.wrap "get: " (.errorf e)))
        | .decodeErr e =>
          some ([⟨cpath, cparams⟩], [], some (.wrap "unmarshal response: " (.errorf e)))
        | .page r2 =>
          match contLoop env cpath fuel' (i + 1) (setLastValue cparams r2.token)
              (acc ++ r.result) r2 with
          | none => none
          | some (reqs, lst, eo) => some (⟨cpath, cparams⟩ :: reqs, lst, eo)

/-- `getResultPaginated` (engine source, lines 168-199): fetch and decode
the first page at the base path, then append `"continuation"` to the path,
append a `continuation_token` parameter holding the first page's token,
and run the loop.  Returns the requests issued and the `(results, err)`
return value. -/
def getResultPaginated {T : Type} (env : Nat → FetchResult T) (fuel : Nat)
    (path : List String) (params : List param) :
    Option (List Request × List T × Option goError) :=
  match env 0 with
  | .httpErr e => some ([⟨path, params⟩], [], some (.wrap "get: " (.errorf e)))
  | .decodeErr e => some ([⟨path, params⟩], [], some (.wrap "unmarshal response: " (.errorf e)))
  | .page r =>
    match contLoop env (path ++ ["continuation"]) fuel 1
        (params ++ [⟨"continuation_token", r.token⟩]) [] r with
    | none => none
    | some (reqs, lst, eo) => some (⟨path, params⟩ :: reqs, lst, eo)

/-- The `for token != "" ` loop of the legacy `GetUserTweets`
(`src/twitter154/api.go`, lines 318-333; `GetUserFollowing`,
`GetUserFollowers`, `GetTweetReplies` and `GetTweetUserFavorites` repeat it
verbatim, so it is embedded once, generic in the item type).  Each
iteration fetches at the continuation path, decodes, appends the decoded
page's items, takes its token, and replaces the last parameter with a
fresh `continuation_token` entry
(`append(continutationParams[:len(continutationParams)-1], ...)`). -/
def legacyLoop {T : Type} (env : Nat → FetchResult T) (cpath : List String) :
    Nat → Nat → List param → List T → String →
    Option (List Request × List T × Option goError)
  | fuel, i, cparams, acc, token =>
    if token = "" then some ([], acc, none)
    else
      match fuel with
      | 0 => none
      | fuel' + 1 =>
        match env i with
        | .httpErr e => some ([⟨cpath, cparams⟩], [], some (.wrap "get user: " (.errorf e)))
        | .decodeErr e =>
          some ([⟨cpath, cparams⟩], [], some (.wrap "unmarshal response: " (.errorf e)))
        | .page r2 =>
          match legacyLoop env cpath fuel' (i + 1)
              (cparams.dropLast ++ [⟨"continuation_token", r2.token⟩])
              (acc ++ r2.result) r2.token with
          | none => none
          | some (reqs, lst, eo) => some (⟨cpath, cparams⟩ :: reqs, lst, eo)

/-- The fetch-and-accumulate part of the legacy `GetUserTweets`
(`src/twitter154/api.go`, lines 304-335), taking the already-built
parameter list as input (the option-driven parameter building of lines
282-302 precedes the loop and adds `user_id`, `limit`, `include_replies`
and `include_pinned` entries).  The first page is fetched at
`["user","tweets"]` and decoded, its token is taken, a
`continuation_token` parameter is appended, and the loop runs while the
token is non-empty.  Note this loop never appends the first page's
`Results` to the accumulator. -/
def GetUserTweetsLegacy {T : Type} (env : Nat → FetchResult T) (fuel : Nat)
    (params : List param) : Option (List Request × List T × Option goError) :=
  match env 0 with
  | .httpErr e => some ([⟨["user", "tweets"], params⟩], [], some (.wrap "get user: " (.errorf e)))
  | .decodeErr e =>
    some ([⟨["user", "tweets"], params⟩], [], some (.wrap "unmarshal response: " (.errorf e)))
  | .page r =>
    match legacyLoop env ["user", "tweets", "continuation"] fuel 1
        (params ++ [⟨"continuation_token", r.token⟩]) [] r.token with
    | none => none
    | some (reqs, lst, eo) => some (⟨["user", "tweets"], params⟩ :: reqs, lst, eo)

/-- One HTTP response as `(*Client).do` sees it: the status code and the
outcome of `io.ReadAll(resp.Body)` (the body read can itself fail). -/
structure httpResponse where
  statusCode : Int
  body : Except String (List Nat)

/-- `(*Client).do` (both sources, lines 112-132), given the outcome of
`c.options.httpClient.Do(req)`: a transport failure is wrapped as
`send request: %w`; a status code outside [200, 300) yields
`fmt.Errorf("status code %d", ...)` and a nil body; a body-read failure is
wrapped as `read response body: %w`; otherwise the full body is returned.
The two header writes and the rate-limiter `Take()` (one admission per
invocation) have no value-level effect to model. -/
def clientDo (transport : Except String httpResponse) : Option (List Nat) × Option goError :=
  match transport with
  | .error e => (none, some (.wrap "send request: " (.errorf e)))
  | .ok resp =>
    if resp.statusCode < 200 ∨ 300 ≤ resp.statusCode then
      (none, some (.errorf ("status code " ++ toString resp.statusCode)))
    else
      match resp.body with
      | .error e => (none, some (.wrap "read response body: " (.errorf e)))
      | .ok d => (some d, none)

/-- `go.uber.org/ratelimit` limiters as this client constructs them:
`ratelimit.NewUnlimited()` or a per-second limiter from `ratelimit.New`. -/
inductive RateLimiter where
  | unlimited
  | perSecond (n : Nat)
deriving DecidableEq, Repr

/-- `http.Client`, reduced to its timeout configuration; the zero value
(`http.DefaultClient` points at one) is the default client. -/
structure HttpClient where
  timeoutMillis : Nat
deriving DecidableEq, Repr

/-- `http.DefaultClient`: the zero-valued client. -/
def defaultHttpClient : HttpClient := ⟨0⟩

/-- `options` (both sources, lines 25-29).  The Go pointer fields
(`*ratelimit.Limiter`, `*http.Client`) are `Option`s, `none` for nil. -/
structure options where
  host : String
  rateLimit : Option RateLimiter
  httpClient : Option HttpClient
deriving DecidableEq, Repr

/-- The zero `options` value `&options{}` that `New` starts from. -/
def emptyOptions : options := ⟨"", none, none⟩

/-- `option` (both sources, line 23): a fallible mutator of `options`,
modelled functionally. -/
def optionF := options → Except goError options

/-- The extra characters Go's `net/url` accepts in a URL authority besides
ASCII alphanumerics (sub-delims, unreserved punctuation, percent, colon
and brackets). -/
def hostExtraChars : List Char := "-._~!$&()*+,;=:%[]".data

/-- Whether `http.NewRequest("GET", "https://" ++ host, nil)` succeeds,
modelled from `net/url`'s authority parsing: every character must be an
allowed host character (spaces and control characters, in particular, are
rejected with `invalid character ... in host name`).  Percent-escape and
port well-formedness are not modelled; no claim depends on them. -/
def hostParses (host : String) : Bool :=
  host.data.all (fun c => c.isAlpha || c.isDigit || hostExtraChars.contains c || c = Char.ofNat 39)

/-- The error `http.NewRequest` returns on an unparsable URL, reduced to a
message naming the URL (the stdlib's exact wording is immaterial). -/
def newRequestErr (host : String) : goError := .errorf ("parse https://" ++ host)

/-- `WithHost` (both sources, lines 31-42): probe the host by building a
request for `https://{host}`; on failure wrap the error as
`invalid host: %w`, otherwise set the host field. -/
def WithHost (host : String) : optionF := fun o =>
  if hostParses host then .ok { o with host := host }
  else .error (.wrap "invalid host: " (newRequestErr host))

/-- `WithRateLimit` (both sources, lines 44-49): always succeeds, stores
the limiter. -/
def WithRateLimit (rl : RateLimiter) : optionF := fun o =>
  .ok { o with rateLimit := some rl }

/-- `WithHttpClient` (both sources, lines 51-56): always succeeds, stores
the client. -/
def WithHttpClient (hc : HttpClient) : optionF := fun o =>
  .ok { o with httpClient := some hc }

/-- `Client` (both sources, lines 58-61).  The `options` pointer is `none`
in the zero value. -/
structure Client where
  apiKey : String
  options : Option options
deriving DecidableEq, Repr

/-- The zero `Client` value that `New` returns alongside an error. -/
def zeroClient : Client := ⟨"", none⟩

/-- The option-application loop of `New` (both sources, lines 65-70):
apply each option in order; the first failure is wrapped as
`bad option: %w` and returned. -/
def applyOptions : List optionF → options → Except goError options
  | [], o => .ok o
  | f :: rest, o =>
    match f o with
    | .error e => .error (.wrap "bad option: " e)
    | .ok o2 => applyOptions rest o2

/-- The default API host substituted by `New`. -/
def defaultHost : String := "twitter154.p.rapidapi.com"

/-- `New` (both sources, lines 63-89): apply the options to a zero
`options` value; on failure return the zero client and the wrapped error.
Then substitute defaults for each zero-valued field — empty host, nil
rate limiter (`ratelimit.NewUnlimited()`), nil HTTP client
(`http.DefaultClient`) — and return the client. -/
def New (apiKey : String) (opts : List optionF) : Client × Option goError :=
  match applyOptions opts emptyOptions with
  | .error e => (zeroClient, some e)
  | .ok o =>
    let o1 := if o.host = "" then { o with host := defaultHost } else o
    let o2 := if o1.rateLimit = none then { o1 with rateLimit := some RateLimiter.unlimited } else o1
    let o3 := if o2.httpClient = none then { o2 with httpClient := some defaultHttpClient } else o2
    ({ apiKey := apiKey, options := some o3 }, none)

/-- Data record for a tweet.  The source (`Tweet`, api.go lines 230-254)
declares two dozen JSON fields; none of them is ever examined by the
engine or by any claim, so only the identifying field is carried. -/
structure Tweet where
  tweetId : String
deriving DecidableEq, Repr

/-- `type Trend = any` (both sources); no value is ever constructed. -/
def Trend : Type := Unit

/-- `GetUserLikes` (engine source, lines 350-352): returns the nil slice
and `ErrNotImplemented` directly — no request is built, no rate-limiter
admission happens, so the request trace is empty. -/
def GetUserLikes (userId : String) : List Request × List Tweet × Option goError :=
  ([], [], some .errNotImplemented)

/-- `Search` (engine source, lines 438-440): same not-implemented shape. -/
def Search (query : String) : List Request × List Tweet × Option goError :=
  ([], [], some .errNotImplemented)

/-- `GetTrends` (engine source, lines 541-543): same not-implemented
shape. -/
def GetTrends (woeId : Int) : List Request × List Trend × Option goError :=
  ([], [], some .errNotImplemented)

theorem contLoop_empty {T : Type} (env : Nat → FetchResult T) (cpath : List String)
    (fuel i : Nat) (cparams : List param) (acc : List T) (r : Page T)
    (h : r.result = []) :
    contLoop env cpath fuel i cparams acc r = some ([], acc, none) := by
  unfold contLoop
  simp [h]

theorem contLoop_zero {T : Type} (env : Nat → FetchResult T) (cpath : List String)
    (i : Nat) (cparams : List param) (acc : List T) (r : Page T)
    (h : r.result ≠ []) :
    contLoop env cpath 0 i cparams acc r = none := by
  unfold contLoop
  simp [h]

theorem contLoop_succ_http {T : Type} (env : Nat → FetchResult T) (cpath : List String)
    (fuel i : Nat) (cparams : List param) (acc : List T) (r : Page T) (e : String)
    (h : r.result ≠ []) (he : env i = .httpErr e) :
    contLoop env cpath (fuel + 1) i cparams acc r =
      some ([⟨cpath, cparams⟩], [], some (.wrap "get: " (.errorf e))) := by
  unfold contLoop
  simp [h, he]

theorem contLoop_succ_decode {T : Type} (env : Nat → FetchResult T) (cpath : List String)
    (fuel i : Nat) (cparams : List param) (acc : List T) (r : Page T) (e : String)
    (h : r.result ≠ []) (he : env i = .decodeErr e) :
    contLoop env cpath (fuel + 1) i cparams acc r =
      some ([⟨cpath, cparams⟩], [], some (.wrap "unmarshal response: " (.errorf e))) := by
  unfold contLoop
  simp [h, he]

theorem contLoop_succ_page_some {T : Type} (env : Nat → FetchResult T) (cpath : List String)
    (fuel i : Nat) (cparams : List param) (acc : List T) (r r2 : Page T)
    (reqs : List Request) (lst : List T) (eo : Option goError)
    (h : r.result ≠ []) (he : env i = .page r2)
    (hrec : contLoop env cpath fuel (i + 1) (setLastValue cparams r2.token)
        (acc ++ r.result) r2 = some (reqs, lst, eo)) :
    contLoop env cpath (fuel + 1) i cparams acc r =
      some (⟨cpath, cparams⟩ :: reqs, lst, eo) := by
  rw [contLoop.eq_def]
  simp [h, he, hrec]

theorem contLoop_succ_page_none {T : Type} (env : Nat → FetchResult T) (cpath : List String)
    (fuel i : Nat) (cparams : List param) (acc : List T) (r r2 : Page T)
    (h : r.result ≠ []) (he : env i = .page r2)
    (hrec : contLoop env cpath fuel (i + 1) (setLastValue cparams r2.token)
        (acc ++ r.result) r2 = none) :
    contLoop env cpath (fuel + 1) i cparams acc r = none := by
  rw [contLoop.eq_def]
  simp [h, he, hrec]

theorem legacyLoop_empty {T : Type} (env : Nat → FetchResult T) (cpath : List String)
    (fuel i : Nat) (cparams : List param) (acc : List T) :
    legacyLoop env cpath fuel i cparams acc "" = some ([], acc, none) := by
  unfold legacyLoop
  simp

theorem legacyLoop_succ_page_some {T : Type} (env : Nat → FetchResult T) (cpath : List String)
    (fuel i : Nat) (cparams : List param) (acc : List T) (token : String) (r2 : Page T)
    (reqs : List Request) (lst : List T) (eo : Option goError)
    (h : token ≠ "") (he : env i = .page r2)
    (hrec : legacyLoop env cpath fuel (i + 1)
        (cparams.dropLast ++ [⟨"continuation_token", r2.token⟩])
        (acc ++ r2.result) r2.token = some (reqs, lst, eo)) :
    legacyLoop env cpath (fuel + 1) i cparams acc token =
      some (⟨cpath, cparams⟩ :: reqs, lst, eo) := by
  rw [legacyLoop.eq_def]
  simp [h, he, hrec]

theorem setLastValue_cons (p : param) (l : List param) (v : String) (h : l ≠ []) :
    setLastValue (p :: l) v = p :: setLastValue l v := by
  cases l with
  | nil => exact absurd rfl h
  | cons q r => rfl

theorem setLastValue_append_single (base : List param) (k v v2 : String) :
    setLastValue (base ++ [⟨k, v⟩]) v2 = base ++ [⟨k, v2⟩] := by
  induction base with
  | nil => rfl
  | cons p bs ih =>
    rw [List.cons_append, setLastValue_cons p _ v2 (by simp), ih, List.cons_append]

example (e : String) : errorsIs (.wrap "get: " (.errorf e)) .errNotImplemented = false := rfl
example (m : String) (i : goError) :
    errorsIs (.wrap m i) .errNotImplemented = errorsIs i .errNotImplemented := rfl
example (s : String) : errorsIs (.errorf s) .errNotImplemented = false := rfl

theorem contLoop_error {T : Type} (env : Nat → FetchResult T) (cpath : List String) :
    ∀ (fuel i : Nat) (cparams : List param) (acc : List T) (r : Page T)
      (reqs : List Request) (lst : List T) (e : goError),
      contLoop env cpath fuel i cparams acc r = some (reqs, lst, some e) →
      lst = [] ∧ errorsIs e .errNotImplemented = false := by
  intro fuel
  induction fuel with
  | zero =>
    intro i cparams acc r reqs lst e h
    by_cases hr : r.result = []
    · rw [contLoop_empty env cpath 0 i cparams acc r hr] at h
      simp at h
    · rw [contLoop_zero env cpath i cparams acc r hr] at h
      simp at h
  | succ fuel ih =>
    intro i cparams acc r reqs lst e h
    by_cases hr : r.result = []
    · rw [contLoop_empty env cpath (fuel + 1) i cparams acc r hr] at h
      simp at h
    · cases henv : env i with
      | httpErr e2 =>
        rw [contLoop_succ_http env cpath fuel i cparams acc r e2 hr henv] at h
        obtain ⟨h1, h2, h3⟩ := by simpa using h
        subst h2 h3
        exact ⟨rfl, rfl⟩
      | decodeErr e2 =>
        rw [contLoop_succ_decode env cpath fuel i cparams acc r e2 hr henv] at h
        obtain ⟨h1, h2, h3⟩ := by simpa using h
        subst h2 h3
        exact ⟨rfl, rfl⟩
      | page r2 =>
        cases hrec : contLoop env cpath fuel (i + 1) (setLastValue cparams r2.token)
            (acc ++ r.result) r2 with
        | none =>
          rw [contLoop_succ_page_none env cpath fuel i cparams acc r r2 hr henv hrec] at h
          simp at h
        | some t =>
          obtain ⟨reqs2, lst2, eo2⟩ := t
          rw [contLoop_succ_page_some env cpath fuel i cparams acc r r2 reqs2 lst2 eo2
              hr henv hrec] at h
          obtain ⟨h1, h2, h3⟩ := by simpa using h
          subst h2 h3
          exact ih _ _ _ _ _ _ _ hrec

set_option maxRecDepth 4000 in
theorem contLoop_success_items {T : Type} (env : Nat → FetchResult T) (cpath : List String) :
    ∀ (fuel i : Nat) (cparams : List param) (acc : List T) (r : Page T)
      (reqs : List Request) (lst : List T),
      contLoop env cpath fuel i cparams acc r = some (reqs, lst, none) →
      lst = acc ++ r.result ++
        (List.range reqs.length).flatMap (fun k => pageItems (env (i + k))) := by
  intro fuel
  induction fuel with
  | zero =>
    intro i cparams acc r reqs lst h
    by_cases hr : r.result = []
    · rw [contLoop_empty env cpath 0 i cparams acc r hr] at h
      obtain ⟨h1, h2⟩ := by simpa using h
      subst h1 h2
      simp [hr]
    · rw [contLoop_zero env cpath i cparams acc r hr] at h
      simp at h
  | succ fuel ih =>
    intro i cparams acc r reqs lst h
    by_cases hr : r.result = []
    · rw [contLoop_empty env cpath (fuel + 1) i cparams acc r hr] at h
      obtain ⟨h1, h2⟩ := by simpa using h
      subst h1 h2
      simp [hr]
    · cases henv : env i with
      | httpErr e2 =>
        rw [contLoop_succ_http env cpath fuel i cparams acc r e2 hr henv] at h
        simp at h
      | decodeErr e2 =>
        rw [contLoop_succ_decode env cpath fuel i cparams acc r e2 hr henv] at h
        simp at h
      | page r2 =>
        cases hrec : contLoop env cpath fuel (i + 1) (setLastValue cparams r2.token)
            (acc ++ r.result) r2 with
        | none =>
          rw [contLoop_succ_page_none env cpath fuel i cparams acc r r2 hr henv hrec] at h
          simp at h
        | some t =>
          obtain ⟨reqs2, lst2, eo2⟩ := t
          rw [contLoop_succ_page_some env cpath fuel i cparams acc r r2 reqs2 lst2 eo2
              hr henv hrec] at h
          obtain ⟨h1, h2, h3⟩ := by simpa using h
          subst h1 h2 h3
          have hi := ih _ _ _ _ _ _ hrec
          rw [hi]
          simp only [List.length_cons, List.range_succ_eq_map, List.flatMap_cons,
            List.flatMap_map]
          have hf : ∀ a : Nat, i + 1 + a = i + Nat.succ a := by omega
          simp only [hf, Nat.add_zero, henv, pageItems]
          simp [List.append_assoc]

theorem contLoop_requests {T : Type} (env : Nat → FetchResult T) (cpath : List String) :
    ∀ (fuel i : Nat) (base : List param) (t : String) (acc : List T) (r : Page T)
      (reqs : List Request) (lst : List T) (eo : Option goError),
      contLoop env cpath fuel i (base ++ [⟨"continuation_token", t⟩]) acc r =
        some (reqs, lst, eo) →
      (∀ q, reqs[0]? = some q → q = ⟨cpath, base ++ [⟨"continuation_token", t⟩]⟩) ∧
      (∀ k q, reqs[k + 1]? = some q →
        isPage (env (i + k)) = true ∧
        q = ⟨cpath, base ++ [⟨"continuation_token", pageToken (env (i + k))⟩]⟩) := by
  intro fuel
  induction fuel with
  | zero =>
    intro i base t acc r reqs lst eo h
    by_cases hr : r.result = []
    · rw [contLoop_empty env cpath 0 i _ acc r hr] at h
      obtain ⟨h1, h2⟩ := by simpa using h
      subst h1
      simp
    · rw [contLoop_zero env cpath i _ acc r hr] at h
      simp at h
  | succ fuel ih =>
    intro i base t acc r reqs lst eo h
    by_cases hr : r.result = []
    · rw [contLoop_empty env cpath (fuel + 1) i _ acc r hr] at h
      obtain ⟨h1, h2⟩ := by simpa using h
      subst h1
      simp
    · cases henv : env i with
      | httpErr e2 =>
        rw [contLoop_succ_http env cpath fuel i _ acc r e2 hr henv] at h
        obtain ⟨h1, h2, h3⟩ := by simpa using h
        subst h1
        constructor
        · intro q hq
          simpa using hq.symm
        · intro k q hq
          simp at hq
      | decodeErr e2 =>
        rw [contLoop_succ_decode env cpath fuel i _ acc r e2 hr henv] at h
        obtain ⟨h1, h2, h3⟩ := by simpa using h
        subst h1
        constructor
        · intro q hq
          simpa using hq.symm
        · intro k q hq
          simp at hq
      | page r2 =>
        cases hrec : contLoop env cpath fuel (i + 1)
            (setLastValue (base ++ [⟨"continuation_token", t⟩]) r2.token)
            (acc ++ r.result) r2 with
        | none =>
          rw [contLoop_succ_page_none env cpath fuel i _ acc r r2 hr henv hrec] at h
          simp at h
        | some t2 =>
          obtain ⟨reqs2, lst2, eo2⟩ := t2
          rw [contLoop_succ_page_some env cpath fuel i _ acc r r2 reqs2 lst2 eo2
              hr henv hrec] at h
          obtain ⟨h1, h2, h3⟩ := by simpa using h
          subst h1
          rw [setLastValue_append_single] at hrec
          obtain ⟨ih1, ih2⟩ := ih (i + 1) base r2.token (acc ++ r.result) r2 reqs2 lst2 eo2 hrec
          constructor
          · intro q hq
            simpa using hq.symm
          · intro k q hq
            cases k with
            | zero =>
              simp only [List.getElem?_cons_succ] at hq
              have := ih1 q hq
              subst this
              simp [henv, isPage, pageToken]
            | succ k2 =>
              simp only [List.getElem?_cons_succ] at hq
              obtain ⟨hp, hq2⟩ := ih2 k2 q hq
              have harith : i + 1 + k2 = i + (k2 + 1) := by omega
              rw [harith] at hp hq2
              exact ⟨hp, hq2⟩

theorem contLoop_success_count {T : Type} (pages : Nat → Page T) (cpath : List String) :
    ∀ (m j fuel : Nat) (cparams : List param) (acc : List T),
      m ≤ fuel →
      (∀ k, k < m → (pages (j + k)).result ≠ []) →
      (pages (j + m)).result = [] →
      ∃ reqs, contLoop (pagesEnv pages) cpath fuel (j + 1) cparams acc (pages j) =
        some (reqs, acc ++ (List.range m).flatMap (fun k => (pages (j + k)).result), none) ∧
        reqs.length = m := by
  intro m
  induction m with
  | zero =>
    intro j fuel cparams acc _ _ hend
    refine ⟨[], ?_, rfl⟩
    rw [contLoop_empty _ cpath fuel (j + 1) cparams acc (pages j) (by simpa using hend)]
    simp
  | succ m ih =>
    intro j fuel cparams acc hfuel hlt hend
    have hj : (pages j).result ≠ [] := by
      have := hlt 0 (by omega)
      simpa using this
    cases fuel with
    | zero => omega
    | succ f =>
      have henv : pagesEnv pages (j + 1) = .page (pages (j + 1)) := rfl
      obtain ⟨reqs2, heq2, hlen2⟩ :=
        ih (j + 1) f (setLastValue cparams (pages (j + 1)).token)
          (acc ++ (pages j).result) (by omega)
          (by
            intro k hk
            have := hlt (k + 1) (by omega)
            have harith : j + (k + 1) = j + 1 + k := by omega
            rwa [harith] at this)
          (by
            have harith : j + (m + 1) = j + 1 + m := by omega
            rwa [harith] at hend)
      refine ⟨⟨cpath, cparams⟩ :: reqs2, ?_, by simp [hlen2]⟩
      rw [contLoop_succ_page_some (pagesEnv pages) cpath f (j + 1) cparams acc (pages j)
          (pages (j + 1)) reqs2 _ none hj henv heq2]
      have hf : ∀ a : Nat, j + 1 + a = j + Nat.succ a := by omega
      simp only [List.range_succ_eq_map, List.flatMap_cons, List.flatMap_map, hf,
        Nat.add_zero, Function.comp]
      simp [List.append_assoc]

theorem legacyLoop_success_count {T : Type} (pages : Nat → Page T) (cpath : List String) :
    ∀ (m j fuel : Nat) (cparams : List param) (acc : List T),
      m ≤ fuel →
      (∀ k, k < m → (pages (j + k)).token ≠ "") →
      (pages (j + m)).token = "" →
      ∃ reqs, legacyLoop (pagesEnv pages) cpath fuel (j + 1) cparams acc (pages j).token =
        some (reqs, acc ++ (List.range m).flatMap (fun k => (pages (j + 1 + k)).result), none) ∧
        reqs.length = m := by
  intro m
  induction m with
  | zero =>
    intro j fuel cparams acc _ _ hend
    refine ⟨[], ?_, rfl⟩
    have hj : (pages j).token = "" := by simpa using hend
    rw [hj, legacyLoop_empty]
    simp
  | succ m ih =>
    intro j fuel cparams acc hfuel hlt hend
    have hj : (pages j).token ≠ "" := by
      have := hlt 0 (by omega)
      simpa using this
    cases fuel with
    | zero => omega
    | succ f =>
      have henv : pagesEnv pages (j + 1) = .page (pages (j + 1)) := rfl
      obtain ⟨reqs2, heq2, hlen2⟩ :=
        ih (j + 1) f (cparams.dropLast ++ [⟨"continuation_token", (pages (j + 1)).token⟩])
          (acc ++ (pages (j + 1)).result) (by omega)
          (by
            intro k hk
            have := hlt (k + 1) (by omega)
            have harith : j + (k + 1) = j + 1 + k := by omega
            rwa [harith] at this)
          (by
            have harith : j + (m + 1) = j + 1 + m := by omega
            rwa [harith] at hend)
      refine ⟨⟨cpath, cparams⟩ :: reqs2, ?_, by simp [hlen2]⟩
      rw [legacyLoop_succ_page_some (pagesEnv pages) cpath f (j + 1) cparams acc
          (pages j).token (pages (j + 1)) reqs2 _ none hj henv heq2]
      have hf : ∀ a : Nat, j + 1 + 1 + a = j + 1 + Nat.succ a := by omega
      simp only [List.range_succ_eq_map, List.flatMap_cons, List.flatMap_map, hf,
        Nat.add_zero, Function.comp]
      simp [List.append_assoc]

theorem getResultPaginated_http {T : Type} (env : Nat → FetchResult T) (fuel : Nat)
    (path : List String) (params : List param) (e : String)
    (henv : env 0 = .httpErr e) :
    getResultPaginated env fuel path params =
      some ([⟨path, params⟩], [], some (.wrap "get: " (.errorf e))) := by
  unfold getResultPaginated
  simp [henv]

theorem getResultPaginated_decode {T : Type} (env : Nat → FetchResult T) (fuel : Nat)
    (path : List String) (params : List param) (e : String)
    (henv : env 0 = .decodeErr e) :
    getResultPaginated env fuel path params =
      some ([⟨path, params⟩], [], some (.wrap "unmarshal response: " (.errorf e))) := by
  unfold getResultPaginated
  simp [henv]

theorem getResultPaginated_page_some {T : Type} (env : Nat → FetchResult T) (fuel : Nat)
    (path : List String) (params : List param) (r : Page T)
    (reqs : List Request) (lst : List T) (eo : Option goError)
    (henv : env 0 = .page r)
    (hrec : contLoop env (path ++ ["continuation"]) fuel 1
        (params ++ [⟨"continuation_token", r.token⟩]) [] r = some (reqs, lst, eo)) :
    getResultPaginated env fuel path params = some (⟨path, params⟩ :: reqs, lst, eo) := by
  unfold getResultPaginated
  simp [henv, hrec]

theorem getResultPaginated_page_none {T : Type} (env : Nat → FetchResult T) (fuel : Nat)
    (path : List String) (params : List param) (r : Page T)
    (henv : env 0 = .page r)
    (hrec : contLoop env (path ++ ["continuation"]) fuel 1
        (params ++ [⟨"continuation_token", r.token⟩]) [] r = none) :
    getResultPaginated env fuel path params = none := by
  unfold getResultPaginated
  simp [henv, hrec]

/-- A three-page run: two non-empty pages, then an empty page whose token
is still non-empty (the loop must stop regardless of the token). -/
def pagesC1 : Nat → Page Nat := fun n =>
  match n with
  | 0 => ⟨[1, 2], "t0"⟩
  | 1 => ⟨[3], "t1"⟩
  | _ => ⟨[], "more"⟩

/-- C1: a paginated call stops at the first page whose item list is empty,
regardless of that page's token; the returned accumulator is the in-order
concatenation of the item lists of all pages before the first empty one,
and the number of fetch round trips is the index of the first empty page
plus one. -/
theorem c1_paginator_stops_at_first_empty_page {T : Type} (pages : Nat → Page T)
    (N fuel : Nat) (path : List String) (params : List param)
    (hfirst : (pages N).result = [])
    (hbefore : ∀ k, k < N → (pages k).result ≠ [])
    (hfuel : N ≤ fuel) :
    (getResultPaginated (pagesEnv pages) fuel path params).map
        (fun t => (t.1.length, t.2.1, t.2.2)) =
      some (N + 1, (List.range N).flatMap (fun k => (pages k).result), none) := by
  obtain ⟨reqs, heq, hlen⟩ :=
    contLoop_success_count pages (path ++ ["continuation"]) N 0 fuel
      (params ++ [⟨"continuation_token", (pages 0).token⟩]) [] hfuel
      (by simpa using hbefore) (by simpa using hfirst)
  simp only [Nat.zero_add] at heq
  rw [getResultPaginated_page_some (pagesEnv pages) fuel path params (pages 0) reqs _ none
    rfl heq]
  simp [hlen]

/-- C1 witness: on the run `[[1,2], [3], []]` (third page carrying a
non-empty token) the accumulator is `[1,2,3]` and exactly three round
trips happen. -/
theorem c1_paginator_stops_at_first_empty_page_witness :
    (pagesC1 2).result = [] ∧
    (getResultPaginated (pagesEnv pagesC1) 5 ["user", "tweets"] []).map
        (fun t => (t.1.length, t.2.1, t.2.2)) = some (3, [1, 2, 3], none) := by
  constructor
  · rfl
  · have h := c1_paginator_stops_at_first_empty_page pagesC1 2 5 ["user", "tweets"] []
      rfl
      (by
        intro k hk
        interval_cases k <;> simp [pagesC1])
      (by omega)
    exact h.trans rfl

/-- C3: in every paginated call the first fetch goes to the base path, and
every later fetch goes to the path with a trailing `continuation` segment
and carries a `continuation_token` parameter holding exactly the token of
the immediately preceding page. -/
theorem c3_first_fetch_base_then_continuation {T : Type} (env : Nat → FetchResult T)
    (fuel : Nat) (path : List String) (params : List param)
    (reqs : List Request) (lst : List T) (eo : Option goError)
    (h : getResultPaginated env fuel path params = some (reqs, lst, eo)) :
    reqs[0]? = some ⟨path, params⟩ ∧
    (∀ j q, reqs[j + 1]? = some q →
      isPage (env j) = true ∧
      q = ⟨path ++ ["continuation"],
            params ++ [⟨"continuation_token", pageToken (env j)⟩]⟩) := by
  cases henv : env 0 with
  | httpErr e2 =>
    rw [getResultPaginated_http env fuel path params e2 henv] at h
    obtain ⟨h1, h2, h3⟩ := by simpa using h
    subst h1
    constructor
    · simp
    · intro j q hq
      simp at hq
  | decodeErr e2 =>
    rw [getResultPaginated_decode env fuel path params e2 henv] at h
    obtain ⟨h1, h2, h3⟩ := by simpa using h
    subst h1
    constructor
    · simp
    · intro j q hq
      simp at hq
  | page r =>
    cases hrec : contLoop env (path ++ ["continuation"]) fuel 1
        (params ++ [⟨"continuation_token", r.token⟩]) [] r with
    | none =>
      rw [getResultPaginated_page_none env fuel path params r henv hrec] at h
      simp at h
    | some t2 =>
      obtain ⟨reqs2, lst2, eo2⟩ := t2
      rw [getResultPaginated_page_some env fuel path params r reqs2 lst2 eo2 henv hrec] at h
      obtain ⟨h1, h2, h3⟩ := by simpa using h
      subst h1
      obtain ⟨ih1, ih2⟩ :=
        contLoop_requests env (path ++ ["continuation"]) fuel 1 params r.token [] r
          reqs2 lst2 eo2 hrec
      constructor
      · simp
      · intro j q hq
        simp only [List.getElem?_cons_succ] at hq
        cases j with
        | zero =>
          have := ih1 q hq
          subst this
          simp [henv, isPage, pageToken]
        | succ j2 =>
          obtain ⟨hp, hq2⟩ := ih2 j2 q hq
          have harith : 1 + j2 = j2 + 1 := by omega
          rw [harith] at hp hq2
          exact ⟨hp, hq2⟩

/-- C3 witness: on the concrete three-page run, the first request targets
the base path and the second request targets the `continuation` path with
the first page's token. -/
theorem c3_first_fetch_base_then_continuation_witness :
    ([(⟨["user", "tweets"], []⟩ : Request),
      ⟨["user", "tweets", "continuation"], [⟨"continuation_token", "t0"⟩]⟩,
      ⟨["user", "tweets", "continuation"], [⟨"continuation_token", "t1"⟩]⟩])[0]? =
        some ⟨["user", "tweets"], []⟩ ∧
    isPage (pagesEnv pagesC1 0) = true ∧
    (⟨["user", "tweets", "continuation"], [⟨"continuation_token", "t0"⟩]⟩ : Request) =
      ⟨["user", "tweets"] ++ ["continuation"],
        [] ++ [⟨"continuation_token", pageToken (pagesEnv pagesC1 0)⟩]⟩ := by
  have h := c3_first_fetch_base_then_continuation (pagesEnv pagesC1) 5 ["user", "tweets"] []
    [⟨["user", "tweets"], []⟩,
      ⟨["user", "tweets", "continuation"], [⟨"continuation_token", "t0"⟩]⟩,
      ⟨["user", "tweets", "continuation"], [⟨"continuation_token", "t1"⟩]⟩]
    [1, 2, 3] none rfl
  exact ⟨h.1, h.2 0 _ rfl⟩

/-- C4: a paginated call never hands back a partial accumulator: on any
fetch or decode failure the returned list is the nil list, and on success
the returned list is the concatenation of the items of every fetched
page. -/
theorem c4_error_returns_nil_list {T : Type} (env : Nat → FetchResult T)
    (fuel : Nat) (path : List String) (params : List param)
    (reqs : List Request) (lst : List T) (eo : Option goError)
    (h : getResultPaginated env fuel path params = some (reqs, lst, eo)) :
    (∀ e, eo = some e → lst = []) ∧
    (eo = none → lst = (List.range reqs.length).flatMap (fun k => pageItems (env k))) := by
  cases henv : env 0 with
  | httpErr e2 =>
    rw [getResultPaginated_http env fuel path params e2 henv] at h
    obtain ⟨h1, h2, h3⟩ := by simpa using h
    subst h2 h3
    exact ⟨fun e _ => rfl, fun hc => by simp at hc⟩
  | decodeErr e2 =>
    rw [getResultPaginated_decode env fuel path params e2 henv] at h
    obtain ⟨h1, h2, h3⟩ := by simpa using h
    subst h2 h3
    exact ⟨fun e _ => rfl, fun hc => by simp at hc⟩
  | page r =>
    cases hrec : contLoop env (path ++ ["continuation"]) fuel 1
        (params ++ [⟨"continuation_token", r.token⟩]) [] r with
    | none =>
      rw [getResultPaginated_page_none env fuel path params r henv hrec] at h
      simp at h
    | some t2 =>
      obtain ⟨reqs2, lst2, eo2⟩ := t2
      rw [getResultPaginated_page_some env fuel path params r reqs2 lst2 eo2 henv hrec] at h
      obtain ⟨h1, h2, h3⟩ := by simpa using h
      subst h1 h2 h3
      constructor
      · intro e heo
        subst heo
        exact (contLoop_error env (path ++ ["continuation"]) fuel 1 _ [] r _ _ _ hrec).1
      · intro heo
        subst heo
        have hi := contLoop_success_items env (path ++ ["continuation"]) fuel 1 _ [] r
          _ _ hrec
        rw [hi]
        have hf : ∀ a : Nat, 1 + a = Nat.succ a := by omega
        simp only [List.length_cons, List.range_succ_eq_map, List.flatMap_cons,
          List.flatMap_map, hf, Function.comp]
        simp [henv, pageItems]

/-- One good page followed by a transport failure. -/
def envC4 : Nat → FetchResult Nat := fun n =>
  match n with
  | 0 => .page ⟨[7], "t"⟩
  | _ => .httpErr "boom"

/-- C4 witness: a run whose second fetch fails returns the error together
with the nil list — the item of the first, successful page is not handed
back. -/
theorem c4_error_returns_nil_list_witness :
    getResultPaginated envC4 5 ["p"] [] =
      some ([⟨["p"], []⟩, ⟨["p", "continuation"], [⟨"continuation_token", "t"⟩]⟩], [],
        some (.wrap "get: " (.errorf "boom"))) ∧
    ([] : List Nat) = [] := by
  refine ⟨rfl, ?_⟩
  exact (c4_error_returns_nil_list envC4 5 ["p"] []
    [⟨["p"], []⟩, ⟨["p", "continuation"], [⟨"continuation_token", "t"⟩]⟩] []
    (some (.wrap "get: " (.errorf "boom"))) rfl).1 _ rfl

/-- C2: `buildUrlWithParameters` returns the bare path URL followed by the
query string the spec describes — parameters in the given order, `?`
before the first `key=value` pair, `&` before each later pair, every value
percent-encoded independently; the empty parameter list yields the bare
path URL. -/
theorem c2_buildUrlWithParameters_query_string (host : String) (path : List String)
    (params : List param) :
    buildUrlWithParameters host path params = buildUrl host path ++ queryStringSpec params := by
  cases params with
  | nil =>
    simp [buildUrlWithParameters, queryStringSpec, List.enum, List.enumFrom,
      String.append_empty]
  | cons p rest =>
    simp only [buildUrlWithParameters, List.enum, List.enumFrom, List.foldl_cons]
    rw [foldl_enumFrom_ampConcat rest 1 _ one_ne_zero]
    simp [queryStringSpec, String.append_assoc]

/-- C5 counterexample: the executor also fails on a status inside
[200, 299] when reading the response body fails, so "fails exactly when
the status is outside [200, 299]" is false. -/
theorem c5_counterexample_body_read_failure :
    clientDo (.ok ⟨204, .error "read fail"⟩) =
      (none, some (.wrap "read response body: " (.errorf "read fail"))) ∧
    (200 ≤ (204 : Int) ∧ (204 : Int) < 300) := by
  exact ⟨rfl, by decide⟩

/-- C5 (amended): given a successful transport call, the executor fails on
a status outside [200, 299] with an error carrying the numeric code and a
nil body, and on a status inside the range it fails only if the body read
fails, otherwise returning the full body. -/
theorem c5_executor_status_check (resp : httpResponse) :
    (resp.statusCode < 200 ∨ 300 ≤ resp.statusCode →
      clientDo (.ok resp) =
        (none, some (.errorf ("status code " ++ toString resp.statusCode)))) ∧
    (¬(resp.statusCode < 200 ∨ 300 ≤ resp.statusCode) →
      (∀ e, resp.body = .error e →
        clientDo (.ok resp) = (none, some (.wrap "read response body: " (.errorf e)))) ∧
      (∀ d, resp.body = .ok d → clientDo (.ok resp) = (some d, none))) := by
  constructor
  · intro h
    simp [clientDo, h]
  · intro h
    constructor
    · intro e he
      simp [clientDo, h, he]
    · intro d hd
      simp [clientDo, h, hd]

/-- C5 witness: a 404 yields the bad-status error with a nil body; a 204
with a readable body yields the body. -/
theorem c5_executor_status_check_witness :
    clientDo (.ok ⟨404, .ok []⟩) = (none, some (.errorf "status code 404")) ∧
    clientDo (.ok ⟨204, .ok [9]⟩) = (some [9], none) := by
  constructor
  · have h := (c5_executor_status_check ⟨404, .ok []⟩).1 (by norm_num)
    exact h.trans rfl
  · exact ((c5_executor_status_check ⟨204, .ok [9]⟩).2 (by norm_num)).2 [9] rfl

theorem applyOptions_append (xs ys : List optionF) :
    ∀ (o o2 : options), applyOptions xs o = .ok o2 →
      applyOptions (xs ++ ys) o = applyOptions ys o2 := by
  induction xs with
  | nil =>
    intro o o2 h
    simp only [applyOptions] at h
    cases h
    simp [applyOptions]
  | cons f rest ih =>
    intro o o2 h
    simp only [applyOptions] at h
    cases hf : f o with
    | error e =>
      rw [hf] at h
      simp at h
    | ok o3 =>
      rw [hf] at h
      simp only [List.cons_append, applyOptions, hf]
      exact ih o3 o2 h

/-- C6: `New` applies options in order and aborts at the first failing
option, returning the zero client and that option's error wrapped as
`bad option: %w`; any options after the failing one are never applied
(they do not influence the result).  In particular `WithHost` fails on a
syntactically invalid host with the probe's error wrapped as
`invalid host: %w`. -/
theorem c6_first_failing_option_aborts :
    (∀ (apiKey : String) (pre post : List optionF) (f : optionF) (o : options) (e : goError),
      applyOptions pre emptyOptions = .ok o → f o = .error e →
      New apiKey (pre ++ f :: post) = (zeroClient, some (.wrap "bad option: " e))) ∧
    (∀ (h : String) (o : options), hostParses h = false →
      WithHost h o = .error (.wrap "invalid host: " (newRequestErr h))) := by
  constructor
  · intro apiKey pre post f o e h1 h2
    have happ := applyOptions_append pre (f :: post) emptyOptions o h1
    simp only [New, happ, applyOptions, h2]
  · intro h o hp
    simp [WithHost, hp]

/-- C6 witness: a host with a space fails the probe, aborting construction
of a client whose option list has a later (never applied) option. -/
theorem c6_first_failing_option_aborts_witness :
    New "k" [WithHost "bad host", WithRateLimit (.perSecond 2)] =
      (zeroClient,
        some (.wrap "bad option: " (.wrap "invalid host: " (newRequestErr "bad host")))) ∧
    WithHost "bad host" emptyOptions =
      .error (.wrap "invalid host: " (newRequestErr "bad host")) := by
  constructor
  · exact c6_first_failing_option_aborts.1 "k" [] [WithRateLimit (.perSecond 2)]
      (WithHost "bad host") emptyOptions _ rfl (by rfl)
  · exact c6_first_failing_option_aborts.2 "bad host" emptyOptions rfl

/-- C7 counterexample: `WithHost ""` succeeds (Go's request probe accepts
`https://`) and assigns the host field, yet `New` substitutes the default
host over it — a field set by an option is overwritten by a default, so
the claim as stated is false. -/
theorem c7_counterexample_with_empty_host :
    WithHost "" emptyOptions = .ok emptyOptions ∧
    New "k" [WithHost ""] =
      (⟨"k", some ⟨defaultHost, some .unlimited, some defaultHttpClient⟩⟩, none) := by
  exact ⟨rfl, rfl⟩

/-- C7 (amended): after the options run successfully, `New` substitutes a
default exactly for each field whose value is still the zero value — host
equal to the empty string (even if an option set it to that), nil rate
limiter, nil HTTP client — and keeps every other field as the options
left it. -/
theorem c7_defaults_zero_value_fields (apiKey : String) (opts : List optionF) (o : options)
    (h : applyOptions opts emptyOptions = .ok o) :
    New apiKey opts =
      (⟨apiKey, some ⟨if o.host = "" then defaultHost else o.host,
          some (o.rateLimit.getD RateLimiter.unlimited),
          some (o.httpClient.getD defaultHttpClient)⟩⟩, none) := by
  simp only [New, h]
  obtain ⟨oh, orl, ohc⟩ := o
  cases orl <;> cases ohc <;> by_cases hh : oh = "" <;> simp [hh]

/-- C7 witness: a client built with only a rate-limit option gets the
default host and default transport but keeps the configured limiter. -/
theorem c7_defaults_zero_value_fields_witness :
    applyOptions [WithRateLimit (.perSecond 3)] emptyOptions =
      .ok ⟨"", some (.perSecond 3), none⟩ ∧
    New "k" [WithRateLimit (.perSecond 3)] =
      (⟨"k", some ⟨defaultHost, some (.perSecond 3), some defaultHttpClient⟩⟩, none) := by
  refine ⟨rfl, ?_⟩
  have h := c7_defaults_zero_value_fields "k" [WithRateLimit (.perSecond 3)]
    ⟨"", some (.perSecond 3), none⟩ rfl
  exact h.trans rfl

/-- C10: with no options, `New` never fails and returns a client whose
configuration is exactly the defaults: the well-known host, the unlimited
rate limiter and the default HTTP client. -/
theorem c10_new_no_options_defaults (apiKey : String) :
    New apiKey [] =
      (⟨apiKey, some ⟨defaultHost, some .unlimited, some defaultHttpClient⟩⟩, none) := rfl

/-- C8: every not-implemented endpoint returns the shared sentinel
`ErrNotImplemented` with the nil result and an empty request trace (zero
HTTP requests, hence zero rate-limiter admissions, since `do` performs
exactly one admission per request), and the sentinel is distinguishable
(`errors.Is`) from every error the executor or the paginator can
surface — transport, protocol, body-read and decode failures alike. -/
theorem c8_not_implemented_endpoints :
    (∀ u : String, GetUserLikes u = ([], [], some .errNotImplemented)) ∧
    (∀ q : String, Search q = ([], [], some .errNotImplemented)) ∧
    (∀ w : Int, GetTrends w = ([], [], some .errNotImplemented)) ∧
    (∀ (t : Except String httpResponse) (d : Option (List Nat)) (e : goError),
      clientDo t = (d, some e) → errorsIs e .errNotImplemented = false) ∧
    (∀ (T : Type) (env : Nat → FetchResult T) (fuel : Nat) (path : List String)
      (params : List param) (reqs : List Request) (lst : List T) (e : goError),
      getResultPaginated env fuel path params = some (reqs, lst, some e) →
      errorsIs e .errNotImplemented = false) := by
  refine ⟨fun _ => rfl, fun _ => rfl, fun _ => rfl, ?_, ?_⟩
  · intro t d e h
    cases t with
    | error e2 =>
      obtain ⟨h1, h2⟩ := by simpa [clientDo] using h
      subst h2
      rfl
    | ok resp =>
      by_cases hs : resp.statusCode < 200 ∨ 300 ≤ resp.statusCode
      · obtain ⟨h1, h2⟩ := by simpa [clientDo, hs] using h
        subst h2
        rfl
      · cases hb : resp.body with
        | error e2 =>
          obtain ⟨h1, h2⟩ := by simpa [clientDo, hs, hb] using h
          subst h2
          rfl
        | ok dd =>
          have hok : clientDo (.ok resp) = (some dd, none) := by simp [clientDo, hs, hb]
          rw [hok] at h
          simp at h
  · intro T env fuel path params reqs lst e h
    cases henv : env 0 with
    | httpErr e2 =>
      rw [getResultPaginated_http env fuel path params e2 henv] at h
      obtain ⟨h1, h2, h3⟩ := by simpa using h
      subst h3
      rfl
    | decodeErr e2 =>
      rw [getResultPaginated_decode env fuel path params e2 henv] at h
      obtain ⟨h1, h2, h3⟩ := by simpa using h
      subst h3
      rfl
    | page r =>
      cases hrec : contLoop env (path ++ ["continuation"]) fuel 1
          (params ++ [⟨"continuation_token", r.token⟩]) [] r with
      | none =>
        rw [getResultPaginated_page_none env fuel path params r henv hrec] at h
        simp at h
      | some t2 =>
        obtain ⟨reqs2, lst2, eo2⟩ := t2
        rw [getResultPaginated_page_some env fuel path params r reqs2 lst2 eo2 henv hrec] at h
        obtain ⟨h1, h2, h3⟩ := by simpa using h
        subst h3
        exact (contLoop_error env (path ++ ["continuation"]) fuel 1 _ [] r _ _ _ hrec).2

/-- C8 witness: `GetUserLikes` issues no request and returns the sentinel;
a concrete protocol error (status 500) does not match the sentinel under
`errors.Is`. -/
theorem c8_not_implemented_endpoints_witness :
    GetUserLikes "u" = ([], [], some .errNotImplemented) ∧
    errorsIs (.errorf "status code 500") .errNotImplemented = false := by
  refine ⟨c8_not_implemented_endpoints.1 "u", ?_⟩
  exact c8_not_implemented_endpoints.2.2.2.1 (.ok ⟨500, .ok []⟩) none
    (.errorf "status code 500") rfl

theorem getUserTweetsLegacy_page_some {T : Type} (env : Nat → FetchResult T) (fuel : Nat)
    (params : List param) (r : Page T)
    (reqs : List Request) (lst : List T) (eo : Option goError)
    (henv : env 0 = .page r)
    (hrec : legacyLoop env ["user", "tweets", "continuation"] fuel 1
        (params ++ [⟨"continuation_token", r.token⟩]) [] r.token = some (reqs, lst, eo)) :
    GetUserTweetsLegacy env fuel params =
      some (⟨["user", "tweets"], params⟩ :: reqs, lst, eo) := by
  unfold GetUserTweetsLegacy
  simp [henv, hrec]

/-- A page run on which the two pagination loops disagree: page 0 is
`([1], "t")`, page 1 is `([2], "")`, page 2 is `([], "")`. -/
def pagesC9 : Nat → Page Nat := fun n =>
  match n with
  | 0 => ⟨[1], "t"⟩
  | 1 => ⟨[2], ""⟩
  | _ => ⟨[], ""⟩

/-- C9 counterexample: on the same page sequence, path and initial
parameters, the legacy `GetUserTweets` loop issues 2 requests and returns
`[2]` while the generic paginator issues 3 requests and returns `[1, 2]` —
neither the request counts nor the accumulated lists are equal, so the
equivalence claim is false. -/
theorem c9_counterexample_legacy_differs :
    (GetUserTweetsLegacy (pagesEnv pagesC9) 9 []).map
        (fun t => (t.1.length, t.2.1, t.2.2)) = some (2, [2], none) ∧
    (getResultPaginated (pagesEnv pagesC9) 9 ["user", "tweets"] []).map
        (fun t => (t.1.length, t.2.1, t.2.2)) = some (3, [1, 2], none) ∧
    ¬((2 : Nat) = 3 ∧ ([2] : List Nat) = [1, 2]) := by
  exact ⟨rfl, rfl, by decide⟩

/-- C9 (amended): the legacy loop is not equivalent to the generic
paginator.  It terminates at the first page whose continuation token is
empty (index `M`), issues `M + 1` requests, and returns only the
continuation pages' items — pages 1 through `M` — dropping the first
page's items, whereas the generic paginator stops at the first empty item
list and keeps every page's items (claim C1's theorem). -/
theorem c9_legacy_loop_characterization {T : Type} (pages : Nat → Page T)
    (M fuel : Nat) (params : List param)
    (hM : (pages M).token = "")
    (hbefore : ∀ k, k < M → (pages k).token ≠ "")
    (hfuel : M ≤ fuel) :
    (GetUserTweetsLegacy (pagesEnv pages) fuel params).map
        (fun t => (t.1.length, t.2.1, t.2.2)) =
      some (M + 1, (List.range M).flatMap (fun k => (pages (k + 1)).result), none) := by
  obtain ⟨reqs, heq, hlen⟩ :=
    legacyLoop_success_count pages ["user", "tweets", "continuation"] M 0 fuel
      (params ++ [⟨"continuation_token", (pages 0).token⟩]) [] hfuel
      (by simpa using hbefore) (by simpa using hM)
  simp only [Nat.zero_add] at heq
  rw [getUserTweetsLegacy_page_some (pagesEnv pages) fuel params (pages 0) reqs _ none
    rfl heq]
  have hf : ∀ a : Nat, 1 + a = a + 1 := by omega
  simp only [hf] at heq ⊢
  simp [hlen, hf]

/-- C9 witness for the amended claim: on the concrete run, the first
empty-token page has index 1, so the legacy loop issues 2 requests and
returns page 1's items only. -/
theorem c9_legacy_loop_characterization_witness :
    (pagesC9 1).token = "" ∧
    (GetUserTweetsLegacy (pagesEnv pagesC9) 9 []).map
        (fun t => (t.1.length, t.2.1, t.2.2)) = some (2, [2], none) := by
  refine ⟨rfl, ?_⟩
  have h := c9_legacy_loop_characterization pagesC9 1 9 [] rfl
    (by
      intro k hk
      interval_cases k <;> simp [pagesC9])
    (by omega)
  exact h.trans rfl
